import Mathlib

/-!
Formal model of `binaries/aot_model_compiler.cc`, the NNC ahead-of-time
model-compiler driver.  C++ `std::string` values are modelled as lists of
characters; machine integers hold small values only, so `Nat`/`Int` model
them exactly.
-/

abbrev Str := List Char

instance {ε α : Type} [DecidableEq ε] [DecidableEq α] : DecidableEq (Except ε α)
  | .error a, .error b => decidable_of_iff (a = b) (by simp)
  | .error _, .ok _ => .isFalse (fun h => Except.noConfusion h)
  | .ok _, .error _ => .isFalse (fun h => Except.noConfusion h)
  | .ok a, .ok b => decidable_of_iff (a = b) (by simp)

def chars (s : String) : Str := s.data

/-- Models the `getline(ss, item, separator)` loop of `split` (source lines
41-54): the result is the list of segments produced by successive `getline`
calls.  `getline` consumes the separator, yields the characters read before
it, and fails (ending the loop) once the stream is exhausted, so a trailing
separator produces no extra empty segment and the empty string produces no
segment at all. -/
def getlinePieces (sep : Char) : Str → List Str
  | [] => []
  | c :: cs =>
    if c = sep then [] :: getlinePieces sep cs
    else
      match getlinePieces sep cs with
      | [] => [[c]]
      | piece :: pieces => (c :: piece) :: pieces

/-- Models `split` (source lines 41-54): the getline segments, keeping a
segment only when `ignore_empty` is false or the segment is nonempty.  Both
call sites in the source use the default `ignore_empty = true`. -/
def split (sep : Char) (string : Str) (ignore_empty : Bool) : List Str :=
  (getlinePieces sep string).filter (fun item => !ignore_empty || !item.isEmpty)

def charVal (c : Char) : Nat := c.toNat - 48

def charsToNat (s : Str) : Nat := s.foldl (fun a c => 10 * a + charVal c) 0

/-- Modelled from the spec: `c10::stoi` (not under `binaries/`) parses a
token of the dimension specification as a decimal integer, with an optional
leading minus sign ("comma-separated integers within a group"). -/
def stoi (s : Str) : Int :=
  match s with
  | [] => 0
  | c :: rest => if c = '-' then -(charsToNat rest : Int) else (charsToNat (c :: rest) : Int)

/-- The shape groups computed by `parse_input_shapes` (source lines 59-69):
split on semicolons into groups, split each group on commas into tokens,
parse each token with `stoi`. -/
def parsedShapes (input_dims : Str) : List (List Int) :=
  (split ';' input_dims true).map fun item => (split ',' item true).map stoi

/-- Models the guard `CAFFE_ENFORCE_GE(FLAGS_input_dims.size(), 0, "Input
dims must be specified.")` (source line 57): the flag string length is
compared against zero with `>=`. -/
def input_dims_guard (input_dims : Str) : Bool := decide (input_dims.length ≥ 0)

/-- Models `parse_input_shapes` (source lines 56-70), including its enforce
guard: a failed guard would raise the configuration error. -/
def parse_input_shapes (input_dims : Str) : Except Str (List (List Int)) :=
  if input_dims_guard input_dims then .ok (parsedShapes input_dims)
  else .error (chars "Input dims must be specified.")

abbrev MethodSpec := List (Str × List Int)

abbrev CompileSpec := List (Str × MethodSpec)

/-- Models `create_compile_spec` (source lines 72-85): parse the input
shapes, `TORCH_CHECK` that there is exactly one shape group, and map the
method name "forward" to that single group under the key "sizes". -/
def create_compile_spec (input_dims : Str) : Except Str CompileSpec :=
  match parse_input_shapes input_dims with
  | .error e => .error e
  | .ok input_shapes =>
    if input_shapes.length = 1 then
      .ok [(chars "forward", [(chars "sizes", input_shapes.headD [])])]
    else
      .error (chars "Wrong # of input shapes: " ++ chars (toString input_shapes.length))

/-- Source line 98: the hardcoded build token. -/
def version_token : Str := chars "VERTOKEN"

/-- Models `get_nnc_kernel_id` (source lines 96-101); it depends only on the
model-name and model-version flags and the method name, never on the
compiled code. -/
def get_nnc_kernel_id (model_name model_version method_name : Str) : Str :=
  model_name ++ chars ":" ++ model_version ++ chars ":" ++ method_name ++
    chars ":" ++ version_token

/-- Source line 117: `preprocess` compiles the method named "forward". -/
def preprocess_method_name : Str := chars "forward"

/-- Models the kernel id attached to the compiled function in `preprocess`
(source line 128). -/
def preprocess_kernel_id (model_name model_version : Str) : Str :=
  get_nnc_kernel_id model_name model_version preprocess_method_name

/-- Models `s.substr(0, s.find(c))`: `find` yields the index of the first
occurrence of `c` (or `npos`, which exceeds the length, when `c` is absent)
and `substr(0, n)` keeps at most the first `n` characters, so the
composition keeps exactly the characters before the first occurrence.
`List.indexOf` returns the length when `c` is absent, giving the same
`take`. -/
def substr_to_first (s : Str) (c : Char) : Str := s.take (s.indexOf c)

/-- Models the output-model naming in `main` (source lines 158-162). -/
def output_model_name (flag_output_model flag_model : Str) : Str :=
  if flag_output_model.isEmpty then
    substr_to_first flag_model '.' ++ chars ".compiled.pt"
  else flag_output_model

/-- Models the assembly-output naming in `write_output_assembly` (source
lines 103-112). -/
def output_asm_name (flag_output_asm flag_model : Str) : Str :=
  if flag_output_asm.isEmpty then
    substr_to_first flag_model '.' ++ chars ".compiled.ll"
  else flag_output_asm

/-- The graph passes and packaging steps `main` can invoke, in source
order. -/
inductive PipelineEv
  | removeTensorMutation
  | eliminateDeadCode
  | removeUnusedSelfArgument
  | annotateInputShapes
  | optimizeFrozenGraph
  | propagateShapes
  | peepholeOptimize
  | constantPropagation
  | createCompileSpec
  | codegenBackendModule
deriving DecidableEq

/-- The optimizer pass invocations of `main` (source lines 178-183): two
unconditional straight-line rounds of shape propagation, peephole rewriting
and constant propagation. -/
def optimization_pass_events : List PipelineEv :=
  [.propagateShapes, .peepholeOptimize, .constantPropagation,
   .propagateShapes, .peepholeOptimize, .constantPropagation]

/-- The graph-pass invocations `main` performs before `create_compile_spec`
(source lines 174-184). -/
def main_pass_sequence : List PipelineEv :=
  [.removeTensorMutation, .eliminateDeadCode, .removeUnusedSelfArgument,
   .annotateInputShapes, .optimizeFrozenGraph] ++ optimization_pass_events

/-- Models the order of operations in `main` (source lines 164-197): every
graph pass runs first, then `create_compile_spec` either fails with its
error or succeeds and backend codegen proceeds.  The number of tensor
inputs of the loaded graph is a parameter; the source never consults it in
`create_compile_spec`. -/
def mainRun (_num_tensor_inputs : Nat) (input_dims : Str) :
    List PipelineEv × Option Str :=
  match create_compile_spec input_dims with
  | .error e => (main_pass_sequence ++ [.createCompileSpec], some e)
  | .ok _ => (main_pass_sequence ++ [.createCompileSpec, .codegenBackendModule], none)

/-- Source line 172: the example inputs are hardcoded as a random tensor of
shape 1 x 3 x 224 x 224. -/
def main_example_input_shape : List Int := [1, 3, 224, 224]

/-- Models the shape that `annotateInputShapes` attaches to the graph input
(source line 177): it comes from the hardcoded example input and is
independent of the `input_dims` flag. -/
def main_annotated_input_shape (_input_dims : Str) : List Int :=
  main_example_input_shape

/-- One optimizer round in `main` (source lines 178-180, repeated at
181-183): shape propagation, then peephole, then constant propagation, over
an abstract graph type. -/
def optimizerRound {G : Type} (prop peep cp : G → G) (g : G) : G := cp (peep (prop g))

/-- The graph produced by the straight-line optimizer code in `main`: two
unconditional rounds. -/
def mainOptimizerResult {G : Type} (prop peep cp : G → G) (g : G) : G :=
  optimizerRound prop peep cp (optimizerRound prop peep cp g)

/-- The pass-invocation trace of the optimizer code in `main`: the code is
straight-line, so the executed sequence never depends on the graph. -/
def mainOptimizerTrace {G : Type} (_prop _peep _cp : G → G) (_g : G) :
    List PipelineEv :=
  optimization_pass_events

/-- Refinement reference, following the spec text: the pass trace the spec
describes, which stops after the first round when that round changes no
shape or value (modelled as the round leaving the graph unchanged). -/
def specOptimizerTrace {G : Type} [DecidableEq G] (prop peep cp : G → G) (g : G) :
    List PipelineEv :=
  if optimizerRound prop peep cp g = g then
    [.propagateShapes, .peepholeOptimize, .constantPropagation]
  else optimization_pass_events

/-- Modelled from the spec: an invocation descriptor of the mobile NNC
compilation unit (`torch::jit::mobile::nnc`, not under `binaries/`): kernel
id, expected input sizes, native entry binding. -/
structure InvocationDescriptor where
  kernel_id : Str
  expected_sizes : List Int
  entry_binding : Str
deriving DecidableEq

/-- Modelled from the spec: a Compilation Unit is an ordered collection of
invocation descriptors. -/
structure CompilationUnit where
  descriptors : List InvocationDescriptor
deriving DecidableEq

def encodeStr (s : Str) : List Int :=
  (s.length : Int) :: s.map (fun c => (c.toNat : Int))

def encodeSizes (l : List Int) : List Int := (l.length : Int) :: l

def encodeDescriptor (d : InvocationDescriptor) : List Int :=
  encodeStr d.kernel_id ++ encodeSizes d.expected_sizes ++ encodeStr d.entry_binding

def serializeDescriptors : List InvocationDescriptor → List Int
  | [] => []
  | d :: ds => encodeDescriptor d ++ serializeDescriptors ds

/-- Modelled from the spec: `CompilationUnit::serialize` (not under
`binaries/`).  The spec fixes only the roundtrip property, not the byte
layout, so the layout is a simple length-prefixed encoding. -/
def serialize (cu : CompilationUnit) : List Int :=
  (cu.descriptors.length : Int) :: serializeDescriptors cu.descriptors

def decodeStr (data : List Int) : Option (Str × List Int) :=
  match data with
  | [] => none
  | n :: rest =>
    if n < 0 then none
    else if n.toNat ≤ rest.length then
      some ((rest.take n.toNat).map (fun i => Char.ofNat i.toNat), rest.drop n.toNat)
    else none

def decodeSizes (data : List Int) : Option (List Int × List Int) :=
  match data with
  | [] => none
  | n :: rest =>
    if n < 0 then none
    else if n.toNat ≤ rest.length then some (rest.take n.toNat, rest.drop n.toNat)
    else none

def decodeDescriptor (data : List Int) : Option (InvocationDescriptor × List Int) :=
  match decodeStr data with
  | none => none
  | some (kid, r1) =>
    match decodeSizes r1 with
    | none => none
    | some (sz, r2) =>
      match decodeStr r2 with
      | none => none
      | some (eb, r3) => some (⟨kid, sz, eb⟩, r3)

def decodeDescriptors : Nat → List Int → Option (List InvocationDescriptor × List Int)
  | 0, data => some ([], data)
  | k + 1, data =>
    match decodeDescriptor data with
    | none => none
    | some (d, r) =>
      match decodeDescriptors k r with
      | none => none
      | some (ds, r2) => some (d :: ds, r2)

/-- Modelled from the spec: the runtime loader's deserializer, inverse to
`serialize`. -/
def deserialize (data : List Int) : Option CompilationUnit :=
  match data with
  | [] => none
  | n :: rest =>
    if n < 0 then none
    else
      match decodeDescriptors n.toNat rest with
      | some (ds, []) => some ⟨ds⟩
      | _ => none

/-- Decimal rendering of a natural number. -/
def natToChars (n : Nat) : Str :=
  if n = 0 then ['0'] else ((Nat.digits 10 n).reverse.map Nat.digitChar)

/-- Decimal rendering of an integer, with a leading minus sign when
negative. -/
def renderInt (n : Int) : Str :=
  if n < 0 then '-' :: natToChars n.natAbs else natToChars n.toNat

/-- Joins pieces with one separator character between consecutive pieces. -/
def joinSep (sep : Char) : List Str → Str
  | [] => []
  | [p] => p
  | p :: q :: ps => p ++ sep :: joinSep sep (q :: ps)

/-- A group of dimensions rendered as comma-separated decimal integers. -/
def renderGroup (g : List Int) : Str := joinSep ',' (g.map renderInt)

/-- Groups rendered as a semicolon-separated dimension specification. -/
def renderGroups (gs : List (List Int)) : Str := joinSep ';' (gs.map renderGroup)

theorem getlinePieces_cons (sep c : Char) (cs : Str) :
    getlinePieces sep (c :: cs) =
      if c = sep then [] :: getlinePieces sep cs
      else
        match getlinePieces sep cs with
        | [] => [[c]]
        | piece :: pieces => (c :: piece) :: pieces := rfl

theorem getlinePieces_no_sep (sep : Char) (p : Str) (hne : p ≠ []) (hm : sep ∉ p) :
    getlinePieces sep p = [p] := by
  induction p with
  | nil => exact absurd rfl hne
  | cons c cs ih =>
    have hc : ¬ c = sep := fun h => hm (by simp [h])
    cases cs with
    | nil =>
      rw [getlinePieces_cons, if_neg hc]
      rfl
    | cons d ds =>
      have hrec : getlinePieces sep (d :: ds) = [d :: ds] :=
        ih (by simp) (fun h => hm (List.mem_cons_of_mem _ h))
      rw [getlinePieces_cons, if_neg hc, hrec]

theorem getlinePieces_append (sep : Char) (p rest : Str) (hm : sep ∉ p) :
    getlinePieces sep (p ++ sep :: rest) = p :: getlinePieces sep rest := by
  induction p with
  | nil =>
    simp only [List.nil_append]
    rw [getlinePieces_cons, if_pos rfl]
  | cons c cs ih =>
    have hc : ¬ c = sep := fun h => hm (by simp [h])
    have hrec := ih (fun h => hm (List.mem_cons_of_mem _ h))
    simp only [List.cons_append]
    rw [getlinePieces_cons, if_neg hc, hrec]

theorem getlinePieces_joinSep (sep : Char) (ps : List Str)
    (hne : ∀ p ∈ ps, p ≠ []) (hm : ∀ p ∈ ps, sep ∉ p) :
    getlinePieces sep (joinSep sep ps) = ps := by
  induction ps with
  | nil => rfl
  | cons p qs ih =>
    cases qs with
    | nil =>
      show getlinePieces sep p = [p]
      exact getlinePieces_no_sep sep p (hne p (by simp)) (hm p (by simp))
    | cons q rs =>
      show getlinePieces sep (p ++ sep :: joinSep sep (q :: rs)) = p :: q :: rs
      rw [getlinePieces_append sep p _ (hm p (by simp))]
      rw [ih (fun r hr => hne r (List.mem_cons_of_mem _ hr))
            (fun r hr => hm r (List.mem_cons_of_mem _ hr))]

theorem split_joinSep (sep : Char) (ps : List Str)
    (hne : ∀ p ∈ ps, p ≠ []) (hm : ∀ p ∈ ps, sep ∉ p) :
    split sep (joinSep sep ps) true = ps := by
  rw [split, getlinePieces_joinSep sep ps hne hm]
  rw [List.filter_eq_self.mpr]
  intro a ha
  simpa using hne a ha

theorem charVal_digitChar {d : Nat} (h : d < 10) : charVal (Nat.digitChar d) = d := by
  interval_cases d <;> decide

theorem digitChar_isDigit {d : Nat} (h : d < 10) : (Nat.digitChar d).isDigit = true := by
  interval_cases d <;> decide

theorem mem_natToChars_isDigit {n : Nat} {c : Char} (h : c ∈ natToChars n) :
    c.isDigit = true := by
  unfold natToChars at h
  by_cases h0 : n = 0
  · rw [if_pos h0] at h
    rcases List.mem_singleton.mp h with rfl
    decide
  · rw [if_neg h0] at h
    rcases List.mem_map.mp h with ⟨d, hd, hdc⟩
    have hlt : d < 10 := Nat.digits_lt_base (by norm_num) (List.mem_reverse.mp hd)
    exact hdc ▸ digitChar_isDigit hlt

theorem foldr_digits_ofDigits (l : List Nat) (h : ∀ d ∈ l, d < 10) :
    List.foldr (fun d a => 10 * a + charVal (Nat.digitChar d)) 0 l = Nat.ofDigits 10 l := by
  induction l with
  | nil => simp [Nat.ofDigits_nil]
  | cons d l ih =>
    rw [List.foldr_cons, ih (fun x hx => h x (List.mem_cons_of_mem _ hx)),
        charVal_digitChar (h d (List.mem_cons_self _ _)), Nat.ofDigits_cons]
    omega

theorem charsToNat_natToChars (n : Nat) : charsToNat (natToChars n) = n := by
  by_cases h0 : n = 0
  · subst h0
    decide
  · unfold natToChars charsToNat
    rw [if_neg h0, List.foldl_map, List.foldl_reverse]
    rw [foldr_digits_ofDigits _ (fun d hd => Nat.digits_lt_base (by norm_num) hd)]
    exact Nat.ofDigits_digits 10 n

theorem natToChars_ne_nil (n : Nat) : natToChars n ≠ [] := by
  unfold natToChars
  by_cases h0 : n = 0
  · simp [h0]
  · simp [h0, Nat.digits_ne_nil_iff_ne_zero]

theorem stoi_natToChars (m : Nat) : stoi (natToChars m) = (m : Int) := by
  cases hc : natToChars m with
  | nil => exact absurd hc (natToChars_ne_nil m)
  | cons c rest =>
    have hdig : c.isDigit = true :=
      mem_natToChars_isDigit (by rw [hc]; exact List.mem_cons_self _ _)
    have hcm : ¬ c = '-' := by
      intro h
      rw [h] at hdig
      exact absurd hdig (by decide)
    rw [stoi, if_neg hcm, ← hc, charsToNat_natToChars]

theorem stoi_renderInt (n : Int) : stoi (renderInt n) = n := by
  unfold renderInt
  by_cases hn : n < 0
  · rw [if_pos hn, stoi, if_pos rfl, charsToNat_natToChars]
    omega
  · rw [if_neg hn, stoi_natToChars]
    omega

theorem mem_renderInt {n : Int} {c : Char} (h : c ∈ renderInt n) :
    c = '-' ∨ c.isDigit = true := by
  unfold renderInt at h
  by_cases hn : n < 0
  · rw [if_pos hn] at h
    rcases List.mem_cons.mp h with h | h
    · exact Or.inl h
    · exact Or.inr (mem_natToChars_isDigit h)
  · rw [if_neg hn] at h
    exact Or.inr (mem_natToChars_isDigit h)

theorem renderInt_ne_nil (n : Int) : renderInt n ≠ [] := by
  unfold renderInt
  by_cases hn : n < 0
  · simp [hn]
  · simp [hn, natToChars_ne_nil]

theorem mem_joinSep {sep : Char} {ps : List Str} {c : Char}
    (h : c ∈ joinSep sep ps) : c = sep ∨ ∃ p ∈ ps, c ∈ p := by
  induction ps with
  | nil => simp [joinSep] at h
  | cons p qs ih =>
    cases qs with
    | nil => exact Or.inr ⟨p, by simp, h⟩
    | cons q rs =>
      rcases List.mem_append.mp h with h | h
      · exact Or.inr ⟨p, by simp, h⟩
      · rcases List.mem_cons.mp h with h | h
        · exact Or.inl h
        · rcases ih h with h | ⟨r, hr, hcr⟩
          · exact Or.inl h
          · exact Or.inr ⟨r, List.mem_cons_of_mem _ hr, hcr⟩

theorem joinSep_ne_nil {sep : Char} {ps : List Str} (hne : ps ≠ [])
    (h : ∀ p ∈ ps, p ≠ []) : joinSep sep ps ≠ [] := by
  cases ps with
  | nil => exact absurd rfl hne
  | cons p qs =>
    cases qs with
    | nil => exact h p (by simp)
    | cons q rs => simp [joinSep]

theorem renderGroup_ne_nil {g : List Int} (hg : g ≠ []) : renderGroup g ≠ [] :=
  joinSep_ne_nil (by simpa using hg) (fun p hp => by
    rcases List.mem_map.mp hp with ⟨x, _, hx⟩
    exact hx ▸ renderInt_ne_nil x)

theorem mem_renderGroup {g : List Int} {c : Char} (h : c ∈ renderGroup g) :
    c = ',' ∨ c = '-' ∨ c.isDigit = true := by
  rcases mem_joinSep h with h | ⟨p, hp, hcp⟩
  · exact Or.inl h
  · rcases List.mem_map.mp hp with ⟨x, _, hx⟩
    rcases mem_renderInt (hx ▸ hcp) with h | h
    · exact Or.inr (Or.inl h)
    · exact Or.inr (Or.inr h)

theorem semicolon_not_mem_renderGroup (g : List Int) : (';' : Char) ∉ renderGroup g := by
  intro h
  rcases mem_renderGroup h with h | h | h <;> revert h <;> decide

theorem comma_not_mem_renderInt (n : Int) : (',' : Char) ∉ renderInt n := by
  intro h
  rcases mem_renderInt h with h | h <;> revert h <;> decide

theorem group_roundtrip (g : List Int) :
    (split ',' (renderGroup g) true).map stoi = g := by
  unfold renderGroup
  rw [split_joinSep ',' (g.map renderInt)
      (fun p hp => by
        rcases List.mem_map.mp hp with ⟨x, _, hx⟩
        exact hx ▸ renderInt_ne_nil x)
      (fun p hp => by
        rcases List.mem_map.mp hp with ⟨x, _, hx⟩
        exact hx ▸ comma_not_mem_renderInt x)]
  rw [List.map_map, show stoi ∘ renderInt = id from funext stoi_renderInt, List.map_id]

theorem parse_input_shapes_ok (s : Str) : parse_input_shapes s = .ok (parsedShapes s) := by
  unfold parse_input_shapes input_dims_guard
  simp

theorem create_compile_spec_of_one_group {s : Str} (h : (parsedShapes s).length = 1) :
    create_compile_spec s =
      .ok [(chars "forward", [(chars "sizes", (parsedShapes s).headD [])])] := by
  unfold create_compile_spec
  rw [parse_input_shapes_ok]
  simp [h]

theorem create_compile_spec_of_other_count {s : Str} (h : (parsedShapes s).length ≠ 1) :
    create_compile_spec s =
      .error (chars "Wrong # of input shapes: " ++
        chars (toString (parsedShapes s).length)) := by
  unfold create_compile_spec
  rw [parse_input_shapes_ok]
  simp [h]

theorem indexOf_append_first {c : Char} (pre post : Str) (h : c ∉ pre) :
    (pre ++ c :: post).indexOf c = pre.length := by
  induction pre with
  | nil => exact List.indexOf_cons_self c post
  | cons a as ih =>
    have ha : a ≠ c := fun hh => h (by simp [hh])
    have hrec := ih (fun hh => h (List.mem_cons_of_mem _ hh))
    simp only [List.cons_append, List.indexOf_cons_ne _ ha, hrec, List.length_cons]

theorem substr_to_first_append {c : Char} (pre post : Str) (h : c ∉ pre) :
    substr_to_first (pre ++ c :: post) c = pre := by
  unfold substr_to_first
  rw [indexOf_append_first pre post h]
  exact List.take_left pre (c :: post)

theorem decodeStr_encodeStr (s : Str) (rest : List Int) :
    decodeStr (encodeStr s ++ rest) = some (s, rest) := by
  unfold decodeStr encodeStr
  simp only [List.cons_append]
  rw [if_neg (by omega)]
  have hlen : ((s.length : Int)).toNat = s.length := Int.toNat_natCast s.length
  have hmap : (s.map fun c => ((c.toNat : Nat) : Int)).length = s.length := List.length_map _ _
  rw [if_pos (by rw [hlen, List.length_append, hmap]; omega)]
  rw [hlen, ← hmap, List.take_left, List.drop_left, List.map_map]
  have : ((fun i => Char.ofNat i.toNat) ∘ fun c => ((c.toNat : Nat) : Int)) = id := by
    funext c
    simp [Char.ofNat_toNat]
  rw [this, List.map_id]

theorem decodeSizes_encodeSizes (l : List Int) (rest : List Int) :
    decodeSizes (encodeSizes l ++ rest) = some (l, rest) := by
  unfold decodeSizes encodeSizes
  simp only [List.cons_append]
  rw [if_neg (by omega)]
  have hlen : ((l.length : Int)).toNat = l.length := Int.toNat_natCast l.length
  rw [if_pos (by rw [hlen, List.length_append]; omega)]
  rw [hlen, List.take_left, List.drop_left]

theorem decodeDescriptor_encodeDescriptor (d : InvocationDescriptor) (rest : List Int) :
    decodeDescriptor (encodeDescriptor d ++ rest) = some (d, rest) := by
  unfold decodeDescriptor encodeDescriptor
  simp only [List.append_assoc, decodeStr_encodeStr, decodeSizes_encodeSizes]

theorem decodeDescriptors_serializeDescriptors (ds : List InvocationDescriptor)
    (rest : List Int) :
    decodeDescriptors ds.length (serializeDescriptors ds ++ rest) = some (ds, rest) := by
  induction ds generalizing rest with
  | nil => rfl
  | cons d ds ih =>
    simp only [serializeDescriptors, List.length_cons, decodeDescriptors, List.append_assoc,
      decodeDescriptor_encodeDescriptor, ih]

/-- C1: the claim says the Shape Annotator attaches the caller-declared
shape from the `input_dims` flag to each graph input, and in particular a
declared shape other than 1 x 3 x 224 x 224 is annotated as declared.  The
code instead annotates the hardcoded example-data shape: with
`input_dims = "2,2"` the declared shape parses to `[[2, 2]]`, yet the
annotated shape is `[1, 3, 224, 224]`. -/
theorem annotated_input_shape_is_hardcoded :
    main_annotated_input_shape (chars "2,2") = [1, 3, 224, 224] ∧
    parsedShapes (chars "2,2") = [[2, 2]] ∧
    main_annotated_input_shape (chars "2,2") ≠ (parsedShapes (chars "2,2")).headD [] :=
  ⟨rfl, by decide, by decide⟩

/-- C2 counterexample: for a graph with two tensor inputs and a declared
specification of one group — the wrong number per the claim — compilation
reports no configuration error at all (the check only compares against the
constant 1), and every optimization pass has run. -/
theorem mismatched_count_no_config_error :
    (mainRun 2 (chars "1,2")).2 = none ∧
    (mainRun 2 (chars "1,2")).1 =
      main_pass_sequence ++ [PipelineEv.createCompileSpec, PipelineEv.codegenBackendModule] :=
  ⟨by decide, by decide⟩

/-- C2 (amended): the compile-spec check compares the parsed group count
only against the constant 1, never against the graph's number of tensor
inputs; whenever the count differs from 1 compilation fails with the
wrong-number-of-input-shapes error, but only after mutation removal,
dead-code elimination, shape propagation, peephole and constant propagation
have already run (they all precede `createCompileSpec` in the trace). -/
theorem wrong_group_count_fails_after_passes (n : Nat) (s : Str)
    (h : (parsedShapes s).length ≠ 1) :
    (mainRun n s).2 =
      some (chars "Wrong # of input shapes: " ++ chars (toString (parsedShapes s).length)) ∧
    (mainRun n s).1 = main_pass_sequence ++ [PipelineEv.createCompileSpec] := by
  unfold mainRun
  rw [create_compile_spec_of_other_count h]
  exact ⟨rfl, rfl⟩

theorem wrong_group_count_fails_after_passes_witness :
    (parsedShapes (chars "1,2;3,4")).length ≠ 1 ∧
    (mainRun 2 (chars "1,2;3,4")).2 =
      some (chars "Wrong # of input shapes: " ++
        chars (toString (parsedShapes (chars "1,2;3,4")).length)) :=
  ⟨by decide, (wrong_group_count_fails_after_passes 2 (chars "1,2;3,4") (by decide)).1⟩

/-- C3 counterexample: on a graph already at a fixpoint (modelled by
identity passes), the spec's early-stopping trace performs one round while
the code's straight-line trace performs two, so the claimed stopping rule
does not describe the code. -/
theorem optimizer_trace_counterexample :
    mainOptimizerTrace (id : Nat → Nat) id id 0 ≠ specOptimizerTrace (id : Nat → Nat) id id 0 := by
  decide

/-- C3 (amended): the optimizer applies shape propagation, then peephole
rewriting, then constant propagation, in that fixed order, for exactly two
full rounds unconditionally; there is no early-stopping check, though when
the first round changes nothing the second round leaves the graph
unchanged, so the resulting graph coincides with the early-stopped one. -/
theorem optimizer_two_rounds_unconditional {G : Type} (prop peep cp : G → G) (g : G) :
    mainOptimizerTrace prop peep cp g = optimization_pass_events ∧
    mainOptimizerResult prop peep cp g =
      optimizerRound prop peep cp (optimizerRound prop peep cp g) ∧
    (optimizerRound prop peep cp g = g → mainOptimizerResult prop peep cp g = g) := by
  refine ⟨rfl, rfl, fun h => ?_⟩
  unfold mainOptimizerResult
  rw [h, h]

theorem optimizer_two_rounds_unconditional_witness :
    mainOptimizerTrace (id : Nat → Nat) id id 0 = optimization_pass_events ∧
    mainOptimizerResult (id : Nat → Nat) id id 0 = 0 :=
  ⟨(optimizer_two_rounds_unconditional id id id 0).1,
   (optimizer_two_rounds_unconditional id id id 0).2.2 rfl⟩

/-- C4: for every model name and model version, the kernel id attached to
the compiled function's descriptor is the four-part concatenation of the
model name, the model version, the method name "forward" and the fixed
placeholder build token "VERTOKEN", joined by colons; the id is a function
of these flags alone, never of the compiled code. -/
theorem preprocess_kernel_id_concatenation (model_name model_version : Str) :
    preprocess_kernel_id model_name model_version =
      model_name ++ chars ":" ++ model_version ++ chars ":" ++ chars "forward" ++
        chars ":" ++ chars "VERTOKEN" := rfl

/-- C5: building the compile spec succeeds exactly when the parsed
input-dimension specification has exactly one shape group; any other count
yields the fatal wrong-number-of-input-shapes error naming the count, and
on success the spec maps exactly the method name "forward" to that single
group under the key "sizes". -/
theorem create_compile_spec_characterization (s : Str) :
    ((∃ spec, create_compile_spec s = .ok spec) ↔ (parsedShapes s).length = 1) ∧
    ((parsedShapes s).length = 1 →
      create_compile_spec s =
        .ok [(chars "forward", [(chars "sizes", (parsedShapes s).headD [])])]) ∧
    ((parsedShapes s).length ≠ 1 →
      create_compile_spec s =
        .error (chars "Wrong # of input shapes: " ++
          chars (toString (parsedShapes s).length))) := by
  refine ⟨⟨?_, fun h => ⟨_, create_compile_spec_of_one_group h⟩⟩,
    fun h => create_compile_spec_of_one_group h,
    fun h => create_compile_spec_of_other_count h⟩
  rintro ⟨spec, hspec⟩
  by_contra h
  rw [create_compile_spec_of_other_count h] at hspec
  exact Except.noConfusion hspec

theorem create_compile_spec_characterization_witness :
    (parsedShapes (chars "1,2")).length = 1 ∧
    create_compile_spec (chars "1,2") =
      .ok [(chars "forward", [(chars "sizes", (parsedShapes (chars "1,2")).headD [])])] :=
  ⟨by decide, (create_compile_spec_characterization (chars "1,2")).2.1 (by decide)⟩

/-- C6: serializing a Compilation Unit and deserializing the resulting
sequence yields exactly the original descriptors, equal in kernel id,
expected input sizes and native entry binding. -/
theorem serialize_deserialize_roundtrip (cu : CompilationUnit) :
    deserialize (serialize cu) = some cu := by
  have h := decodeDescriptors_serializeDescriptors cu.descriptors []
  rw [List.append_nil] at h
  simp only [serialize, deserialize]
  rw [if_neg (by omega), Int.toNat_natCast, h]

/-- C7: a well-formed input-dimension string of semicolon-separated groups
of comma-separated decimal integers parses to exactly those integer
sequences, group for group and in order. -/
theorem parsedShapes_renderGroups (gs : List (List Int)) (h : ∀ g ∈ gs, g ≠ []) :
    parsedShapes (renderGroups gs) = gs := by
  unfold parsedShapes renderGroups
  rw [split_joinSep ';' (gs.map renderGroup)
      (fun p hp => by
        rcases List.mem_map.mp hp with ⟨g, hg, hgp⟩
        exact hgp ▸ renderGroup_ne_nil (h g hg))
      (fun p hp => by
        rcases List.mem_map.mp hp with ⟨g, _, hgp⟩
        exact hgp ▸ semicolon_not_mem_renderGroup g)]
  rw [List.map_map,
    show ((fun item => (split ',' item true).map stoi) ∘ renderGroup) = id from
      funext group_roundtrip,
    List.map_id]

theorem parsedShapes_renderGroups_witness :
    (∀ g ∈ [[(1 : Int), 23], [4]], g ≠ []) ∧
    parsedShapes (renderGroups [[(1 : Int), 23], [4]]) = [[1, 23], [4]] :=
  ⟨by decide, parsedShapes_renderGroups [[(1 : Int), 23], [4]] (by decide)⟩

/-- C8: the enforce guard on `input_dims` compares the length to zero with
a greater-or-equal test, which every string satisfies, so parsing never
raises the missing-input-dims error; for the empty flag the failure
surfaces later, in `create_compile_spec`, as the wrong-number-of-input-
shapes error with count 0. -/
theorem input_dims_guard_vacuous :
    (∀ s : Str, input_dims_guard s = true) ∧
    parse_input_shapes [] = .ok [] ∧
    create_compile_spec [] = .error (chars "Wrong # of input shapes: 0") :=
  ⟨fun s => by simp [input_dims_guard], by decide, by decide⟩

/-- C9: with an empty output-model flag the compiled model is written to
the model path truncated at its first dot with ".compiled.pt" appended, and
with an empty output-assembly flag the assembly goes to the same prefix
with ".compiled.ll" appended — the truncation uses the first dot even when
it is not the extension separator. -/
theorem default_output_names (pre post : Str) (h : ('.' : Char) ∉ pre) :
    output_model_name [] (pre ++ '.' :: post) = pre ++ chars ".compiled.pt" ∧
    output_asm_name [] (pre ++ '.' :: post) = pre ++ chars ".compiled.ll" := by
  unfold output_model_name output_asm_name
  rw [substr_to_first_append pre post h]
  exact ⟨rfl, rfl⟩

theorem default_output_names_witness :
    (('.' : Char) ∉ chars "model") ∧
    output_model_name [] (chars "model" ++ '.' :: chars "v2.pt") =
      chars "model" ++ chars ".compiled.pt" :=
  ⟨by decide, (default_output_names (chars "model") (chars "v2.pt") (by decide)).1⟩

/-- C10: the splitter silently discards empty pieces, so consecutive,
leading or trailing separators are ignored: "1,,3;;4;" parses to the same
groups as "1,3;4", and no result of `split` with `ignore_empty` ever
contains an empty piece. -/
theorem split_discards_empty_pieces :
    parsedShapes (chars "1,,3;;4;") = [[1, 3], [4]] ∧
    parsedShapes (chars "1,3;4") = [[1, 3], [4]] ∧
    ∀ (sep : Char) (s : Str), [] ∉ split sep s true := by
  refine ⟨by decide, by decide, fun sep s h => ?_⟩
  have hmem := List.of_mem_filter h
  simp at hmem

theorem preprocess_kernel_id_concatenation_witness :
    preprocess_kernel_id (chars "resnet") (chars "1.0") =
      chars "resnet" ++ chars ":" ++ chars "1.0" ++ chars ":" ++ chars "forward" ++
        chars ":" ++ chars "VERTOKEN" :=
  preprocess_kernel_id_concatenation (chars "resnet") (chars "1.0")

theorem serialize_deserialize_roundtrip_witness :
    deserialize (serialize ⟨[⟨chars "m:1:forward:VERTOKEN", [1, 3, 224, 224], chars "m"⟩]⟩) =
      some ⟨[⟨chars "m:1:forward:VERTOKEN", [1, 3, 224, 224], chars "m"⟩]⟩ :=
  serialize_deserialize_roundtrip _

theorem input_dims_guard_vacuous_witness :
    input_dims_guard (chars "1,3,224,224") = true :=
  input_dims_guard_vacuous.1 (chars "1,3,224,224")

theorem split_discards_empty_pieces_witness :
    [] ∉ split ';' (chars "1,,3;;4;") true :=
  split_discards_empty_pieces.2.2 ';' (chars "1,,3;;4;")
